import Mathlib

/-!
# Verification of the `httpassert` package (`server.go`)

A shallow embedding of the core of the Go package `httpassert`: a mock
HTTP server holding an ordered list of `ExpectedCall` entries, routing
each inbound request to the first entry whose `Match` succeeds,
decrementing that entry's call counter, synthesising a new entry for
unmatched requests, and finally reporting counter imbalances via
`Assert`.

Modelling conventions:
* `http.Request` is restricted to the two fields the package inspects,
  `r.Method` and `r.URL.Path`.
* Writing to an `http.ResponseWriter` is modelled by returning an
  abstract `Response` value; an `http.Handler` is a function
  `Request → Response`.
* The package-level mutable variable `NotFound` is threaded through the
  serving operations as an explicit parameter `notFound`.
* Go's `int` counter is modelled as `Int` (the counters move by ±1 per
  call, far from machine-word overflow).
* `strings.HasPrefix(s, p)` is modelled character-wise as
  `p.data.isPrefixOf s.data`.
* Methods that mutate their receiver return the updated value; methods
  that do not mutate (such as `Server.Assert`) return the receiver
  unchanged alongside their results, mirroring the absence of any field
  assignment in the Go source.
* `t.Errorf` calls are modelled by accumulating structured `Report`
  values in emission order.
* The process-wide registry `testServers` is modelled as the list of
  servers in registration order, passed to the package-level `Assert`.
-/

namespace Httpassert

/-- An inbound HTTP request, restricted to the fields the package reads:
`r.Method` and `r.URL.Path`. -/
structure Request where
  method : String
  path : String

/-- The abstract observable outcome of writing an HTTP response. -/
abbrev Response : Type := String

/-- `ExpectedCall` from `server.go`: method, path (used as a path
prefix by `Match`), optional handler, and the signed remaining-call
counter `Calls`. The `sync.Mutex` field guards `Calls` at runtime and
has no sequential content, so it is not part of the state. -/
structure ExpectedCall where
  Method : String
  Path : String
  Handler : Option (Request → Response)
  Calls : Int

/-- `ExpectedCall.Match`: `ec.Method == r.Method &&
strings.HasPrefix(r.URL.Path, ec.Path)`. A pure function of the request
and the entry's immutable fields. -/
def ExpectedCall.Match (ec : ExpectedCall) (r : Request) : Bool :=
  ec.Method == r.method && ec.Path.data.isPrefixOf r.path.data

/-- `ExpectedCall.Increment`: `ec.Calls += i` (the lock acquisition has
no sequential content). This is the only counter mutation point. -/
def ExpectedCall.Increment (ec : ExpectedCall) (i : Int) : ExpectedCall :=
  { ec with Calls := ec.Calls + i }

/-- `ExpectedCall.ServeHTTP`: serve with the entry's handler, falling
back to the `NotFound` responder when the handler is `nil`, then
`Increment(-1)`. Returns the updated entry and the response written. -/
def ExpectedCall.ServeHTTP (notFound : Request → Response)
    (ec : ExpectedCall) (r : Request) : ExpectedCall × Response :=
  let h := match ec.Handler with
    | some h => h
    | none => notFound
  let resp := h r
  (ec.Increment (-1), resp)

/-- `Server` from `server.go`: its name, the ordered `ExpectedCalls`
list, and whether the underlying `httptest.Server` listener has been
closed. The listener itself, the middleware chain and the `sync.Mutex`
are external or runtime-only and carry no sequential routing state. -/
structure Server where
  Name : String
  ExpectedCalls : List ExpectedCall
  closed : Bool

/-- `Server.Expect`: append an `ExpectedCall` to the list (the lock
acquisition has no sequential content). -/
def Server.Expect (s : Server) (ec : ExpectedCall) : Server :=
  { s with ExpectedCalls := s.ExpectedCalls ++ [ec] }

/-- The scan loop inside `Server.serveHTTP`: walk the list in order;
on the first entry whose `Match` succeeds, serve it in place and stop,
returning the updated list and response; `none` when no entry matches
(the loop falls through). -/
def serveScan (notFound : Request → Response) :
    List ExpectedCall → Request → Option (List ExpectedCall × Response)
  | [], _ => none
  | ec :: rest, r =>
    if ec.Match r then
      let sr := ec.ServeHTTP notFound r
      some (sr.1 :: rest, sr.2)
    else
      match serveScan notFound rest r with
      | some p => some (ec :: p.1, p.2)
      | none => none

/-- `Server.serveHTTP`: route the request to the first matching entry;
if none matches, build a synthetic `ExpectedCall{Method: r.Method,
Path: r.URL.Path}` (zero-valued handler and counter), serve it
immediately, then append it via `Expect`. -/
def Server.serveHTTP (notFound : Request → Response)
    (s : Server) (r : Request) : Server × Response :=
  match serveScan notFound s.ExpectedCalls r with
  | some p => ({ s with ExpectedCalls := p.1 }, p.2)
  | none =>
    let ec : ExpectedCall := ⟨r.method, r.path, none, 0⟩
    let sr := ec.ServeHTTP notFound r
    (s.Expect sr.1, sr.2)

/-- Routing a sequence of requests through a server, in order. -/
def serveSeq (notFound : Request → Response)
    (s : Server) (rs : List Request) : Server :=
  rs.foldl (fun s r => (s.serveHTTP notFound r).1) s

/-- Routing a sequence of requests to a single `ExpectedCall`, in
order (each one served by that entry). -/
def serveCalls (notFound : Request → Response)
    (ec : ExpectedCall) (rs : List Request) : ExpectedCall :=
  rs.foldl (fun e r => (e.ServeHTTP notFound r).1) ec

/-- One `t.Errorf` diagnostic emitted by `Server.Assert`:
`"Server(%s) got (%d) unexpected calls to %s %s"` or
`"Server(%s) expected (%d) more calls to %s %s"`. -/
inductive Report where
  | unexpectedCalls (server : String) (n : Int) (method path : String)
  | moreCallsExpected (server : String) (n : Int) (method path : String)

/-- The loop body of `Server.Assert`, with the emitted reports and the
`pass` flag threaded as accumulators exactly as in the Go loop: for
each entry, `Calls < 0` emits the unexpected-calls report with
`-ec.Calls` and clears `pass`; `Calls > 0` emits the more-calls
report with `ec.Calls` and clears `pass`. -/
def assertLoop (name : String) :
    List ExpectedCall → List Report → Bool → List Report × Bool
  | [], reports, pass => (reports, pass)
  | ec :: rest, reports, pass =>
    let st1 : List Report × Bool :=
      if ec.Calls < 0 then
        (reports ++ [Report.unexpectedCalls name (-ec.Calls) ec.Method ec.Path], false)
      else (reports, pass)
    let st2 : List Report × Bool :=
      if ec.Calls > 0 then
        (st1.1 ++ [Report.moreCallsExpected name ec.Calls ec.Method ec.Path], false)
      else st1
    assertLoop name rest st2.1 st2.2

/-- `Server.Assert`: iterate the list once, emitting diagnostics and
computing the pass flag. The Go method assigns no field of the
receiver, so the returned server is the receiver itself. -/
def Server.Assert (s : Server) : Server × List Report × Bool :=
  (s, assertLoop s.Name s.ExpectedCalls [] true)

/-- `Server.Close`: closes the underlying listener; touches no
expectation state. -/
def Server.Close (s : Server) : Server :=
  { s with closed := true }

/-- The loop body of the package-level `Assert`:
`pass = s.Assert(t) && pass` for each registered server, reports
accumulating in iteration order; note the left operand runs first, so
every server is asserted. -/
def assertAllLoop : List Server → List Report → Bool → List Report × Bool
  | [], reports, pass => (reports, pass)
  | s :: rest, reports, pass =>
    let r := s.Assert
    assertAllLoop rest (reports ++ r.2.1) (r.2.2 && pass)

/-- The package-level `Assert`, applied to the registry `testServers`
(the list of servers created by `New`, in registration order). -/
def Assert (testServers : List Server) : List Report × Bool :=
  assertAllLoop testServers [] true

/-- The reports `Server.Assert` emits for a single entry. -/
def entryReports (name : String) (ec : ExpectedCall) : List Report :=
  (if ec.Calls < 0 then
    [Report.unexpectedCalls name (-ec.Calls) ec.Method ec.Path]
  else []) ++
  (if ec.Calls > 0 then
    [Report.moreCallsExpected name ec.Calls ec.Method ec.Path]
  else [])

/-! Concrete sample data used by the witness theorems. -/

/-- A sample not-found responder. -/
def nf0 : Request → Response := fun _ => "404 page not found"

/-- A sample request. -/
def reqU : Request := ⟨"GET", "/users/123"⟩

/-- A sample expectation that does not match `reqU`. -/
def ecP : ExpectedCall := ⟨"POST", "/x", none, 1⟩

/-- A sample expectation that matches `reqU`. -/
def ecU : ExpectedCall := ⟨"GET", "/users", none, 2⟩

/-- A sample server holding `ecP` then `ecU`. -/
def srvA : Server := ⟨"srv", [ecP, ecU], false⟩

/-- A sample request matching neither entry of `srvA`. -/
def reqQ : Request := ⟨"PUT", "/q"⟩

/-- A sample request used against the catch-all server `srvC`. -/
def reqW : Request := ⟨"GET", "/whatever"⟩

/-- A sample server whose second entry has an empty `Path`. -/
def srvC : Server :=
  ⟨"c", [⟨"POST", "/x", none, 1⟩, ⟨"GET", "", none, 1⟩, ⟨"GET", "/z", none, 5⟩], false⟩

/-- A sample server whose every counter is zero. -/
def srvZ : Server := ⟨"z", [⟨"GET", "/a", none, 0⟩, ⟨"PUT", "/b", none, 0⟩], false⟩

/-- **C2.** `Match` returns `true` iff the request's method equals the
entry's `Method` exactly and the entry's `Path` is a prefix of the
request's path. `Match` is embedded as a pure function
`ExpectedCall → Request → Bool`: it produces no updated state, so it
mutates nothing. -/
theorem match_iff (ec : ExpectedCall) (r : Request) :
    ec.Match r = true ↔ ec.Method = r.method ∧ ec.Path.data <+: r.path.data := by
  simp [ExpectedCall.Match]

/-- If no entry of the list matches, the scan falls through. -/
theorem serveScan_of_all_false (nf : Request → Response) (r : Request)
    (l : List ExpectedCall) (h : ∀ ec ∈ l, ec.Match r = false) :
    serveScan nf l r = none := by
  induction l with
  | nil => rfl
  | cons ec rest ih =>
    have h1 : ec.Match r = false := h ec (List.mem_cons_self ec rest)
    have h2 : serveScan nf rest r = none :=
      ih fun e he => h e (List.mem_cons_of_mem ec he)
    simp [serveScan, h1, h2]

/-- The scan stops at the first matching index `i`: the result replaces
entry `i` by its served version and returns that entry's response. -/
theorem serveScan_first (nf : Request → Response) (r : Request) :
    ∀ (l : List ExpectedCall) (i : Nat) (hi : i < l.length),
      l[i].Match r = true →
      (∀ j (hj : j < i), l[j].Match r = false) →
      serveScan nf l r =
        some (l.set i (l[i].ServeHTTP nf r).1, (l[i].ServeHTTP nf r).2)
  | [], i, hi, _, _ => absurd hi (Nat.not_lt_zero i)
  | ec :: rest, 0, _, hm, _ => by
      have hm0 : ec.Match r = true := hm
      simp [serveScan, hm0]
  | ec :: rest, i + 1, hi, hm, hfirst => by
      have h0 : ec.Match r = false := hfirst 0 (Nat.succ_pos i)
      have hi' : i < rest.length := Nat.lt_of_succ_lt_succ hi
      have hm' : rest[i].Match r = true := by
        simpa using hm
      have hfirst' : ∀ j (hj : j < i), rest[j].Match r = false := by
        intro j hj
        have hjlen : j < rest.length := Nat.lt_trans hj hi'
        have := hfirst (j + 1) (Nat.succ_lt_succ hj)
        simpa using this
      have ih := serveScan_first nf r rest i hi' hm' hfirst'
      simp [serveScan, h0, ih]

/-- **C1.** Routing scans the registered expectation list in
registration order and dispatches to the first entry whose `Match`
returns true: the resulting list replaces that entry alone by its
served version (its counter decremented by 1), the response is that
entry's, and every other entry — including every later one, matching
or not — is unchanged. -/
theorem first_match_wins (nf : Request → Response) (s : Server) (r : Request)
    (i : Nat) (hi : i < s.ExpectedCalls.length)
    (hm : s.ExpectedCalls[i].Match r = true)
    (hfirst : ∀ j (hj : j < i), s.ExpectedCalls[j].Match r = false) :
    (s.serveHTTP nf r).1.ExpectedCalls
        = s.ExpectedCalls.set i (s.ExpectedCalls[i].ServeHTTP nf r).1
      ∧ (s.serveHTTP nf r).2 = (s.ExpectedCalls[i].ServeHTTP nf r).2
      ∧ (s.ExpectedCalls[i].ServeHTTP nf r).1.Calls = s.ExpectedCalls[i].Calls - 1
      ∧ ∀ j, j ≠ i →
          (s.serveHTTP nf r).1.ExpectedCalls[j]? = s.ExpectedCalls[j]? := by
  have hscan := serveScan_first nf r s.ExpectedCalls i hi hm hfirst
  refine ⟨?_, ?_, ?_, ?_⟩
  · simp [Server.serveHTTP, hscan]
  · simp [Server.serveHTTP, hscan]
  · simp only [ExpectedCall.ServeHTTP, ExpectedCall.Increment]
    omega
  · intro j hj
    simp [Server.serveHTTP, hscan, List.getElem?_set_ne (Ne.symm hj)]

/-- Witness for C1: in `srvA`, the request `reqU` matches the second
entry `ecU` (and not the first), and routing serves exactly that
entry. -/
theorem first_match_wins_witness :
    (ecU.Match reqU = true ∧ ecP.Match reqU = false)
    ∧ ((srvA.serveHTTP nf0 reqU).1.ExpectedCalls
          = srvA.ExpectedCalls.set 1 (ecU.ServeHTTP nf0 reqU).1
        ∧ (srvA.serveHTTP nf0 reqU).2 = (ecU.ServeHTTP nf0 reqU).2
        ∧ (ecU.ServeHTTP nf0 reqU).1.Calls = ecU.Calls - 1
        ∧ ∀ j, j ≠ 1 →
            (srvA.serveHTTP nf0 reqU).1.ExpectedCalls[j]? = srvA.ExpectedCalls[j]?) :=
  ⟨⟨by decide, by decide⟩,
    first_match_wins nf0 srvA reqU 1 (by decide) (by decide)
      (by decide)⟩

/-- Serving a sequence of requests to one entry subtracts the number of
requests from its counter. -/
theorem serveCalls_calls (nf : Request → Response) :
    ∀ (rs : List Request) (ec : ExpectedCall),
      (serveCalls nf ec rs).Calls = ec.Calls - rs.length
  | [], ec => by simp [serveCalls]
  | r :: rest, ec => by
      have ih := serveCalls_calls nf rest ((ec.ServeHTTP nf r).1)
      have hc : ((ec.ServeHTTP nf r).1).Calls = ec.Calls + (-1) := rfl
      simp only [serveCalls, List.foldl] at ih ⊢
      rw [ih, hc]
      simp only [List.length_cons]
      push_cast
      ring

/-- **C3.** For an entry with initial count `N ≥ 0`, after exactly `K`
requests have been routed to it its counter equals `N - K` (it may go
negative), and each single serving decrements the counter by exactly
one. -/
theorem counter_conservation (nf : Request → Response) (ec : ExpectedCall)
    (N : Int) (rs : List Request) (h0 : ec.Calls = N) (hN : 0 ≤ N) :
    (serveCalls nf ec rs).Calls = N - rs.length
    ∧ ∀ (e : ExpectedCall) (r : Request),
        (e.ServeHTTP nf r).1.Calls = e.Calls - 1 := by
  constructor
  · rw [serveCalls_calls nf rs ec, h0]
  · intro e r
    show e.Calls + (-1) = e.Calls - 1
    ring

/-- Witness for C3: `ecU` starts at `N = 2`; three requests leave its
counter at `2 - 3 = -1`. -/
theorem counter_conservation_witness :
    (ecU.Calls = 2 ∧ (0 : Int) ≤ 2)
    ∧ ((serveCalls nf0 ecU [reqU, reqU, reqU]).Calls
          = 2 - ([reqU, reqU, reqU] : List Request).length
        ∧ ∀ (e : ExpectedCall) (r : Request),
            (e.ServeHTTP nf0 r).1.Calls = e.Calls - 1) :=
  ⟨⟨by decide, by decide⟩,
    counter_conservation nf0 ecU 2 [reqU, reqU, reqU] (by decide) (by decide)⟩

/-- **C6.** Serving an entry dispatches to its handler when set and to
the configured not-found responder otherwise, then decrements the
counter by exactly one through the single mutation entry point
`Increment` with delta `-1`, unconditionally; all other fields are
untouched, and serving is a total operation (no error path). -/
theorem serve_dispatch (nf : Request → Response) (ec : ExpectedCall)
    (r : Request) :
    (ec.ServeHTTP nf r).1 = ec.Increment (-1)
    ∧ (ec.ServeHTTP nf r).1.Calls = ec.Calls - 1
    ∧ (ec.ServeHTTP nf r).1.Method = ec.Method
    ∧ (ec.ServeHTTP nf r).1.Path = ec.Path
    ∧ (ec.ServeHTTP nf r).1.Handler = ec.Handler
    ∧ (ec.ServeHTTP nf r).2 = (ec.Handler.getD nf) r := by
  refine ⟨rfl, ?_, rfl, rfl, rfl, ?_⟩
  · show ec.Calls + (-1) = ec.Calls - 1
    ring
  · cases h : ec.Handler <;> simp [ExpectedCall.ServeHTTP, h]

/-- **C7.** `Server.Assert` mutates nothing: it returns the receiver
unchanged, calling it again yields the very same results, and calling
it after `Close` yields results identical to calling it before. -/
theorem assert_readonly (s : Server) :
    (s.Assert).1 = s
    ∧ (s.Close.Assert).2 = (s.Assert).2
    ∧ (s.Assert).1.Assert = s.Assert :=
  ⟨rfl, rfl, rfl⟩

/-- The `Assert` loop produces, after any accumulator, the per-entry
reports in list order, and clears the pass flag iff some entry has a
nonzero counter. -/
theorem assertLoop_spec (name : String) :
    ∀ (l : List ExpectedCall) (acc : List Report) (pass : Bool),
      assertLoop name l acc pass
        = (acc ++ l.flatMap (entryReports name),
           pass && l.all fun ec => ec.Calls == 0)
  | [], acc, pass => by simp [assertLoop]
  | ec :: rest, acc, pass => by
      have ih := fun acc pass => assertLoop_spec name rest acc pass
      rcases lt_trichotomy ec.Calls 0 with h | h | h
      · have h2 : ¬ ec.Calls > 0 := by omega
        have h3 : (ec.Calls == 0) = false := by
          rw [beq_eq_false_iff_ne]
          omega
        simp [assertLoop, h, h2, h3, entryReports, ih]
      · have h3 : (ec.Calls == 0) = true := by
          rw [beq_iff_eq]
          omega
        simp [assertLoop, h, entryReports, ih, h3]
      · have h2 : ¬ ec.Calls < 0 := by omega
        have h3 : (ec.Calls == 0) = false := by
          rw [beq_eq_false_iff_ne]
          omega
        simp [assertLoop, h, h2, h3, entryReports, ih]

/-- **C5.** `Server.Assert` returns `true` iff no entry has a nonzero
counter; its reports are exactly the per-entry diagnostics, one
unexpected-calls report (with the absolute value) per negative entry
and one more-calls-expected report per positive entry, in list order;
when every counter is zero it reports nothing. -/
theorem assert_reports (s : Server) :
    ((s.Assert).2.2 = true ↔ ∀ ec ∈ s.ExpectedCalls, ec.Calls = 0)
    ∧ (s.Assert).2.1 = s.ExpectedCalls.flatMap (entryReports s.Name)
    ∧ ((∀ ec ∈ s.ExpectedCalls, ec.Calls = 0) → (s.Assert).2.1 = []) := by
  refine ⟨?_, ?_, ?_⟩
  · simp [Server.Assert, assertLoop_spec]
  · simp [Server.Assert, assertLoop_spec]
  · intro h
    have : ∀ ec ∈ s.ExpectedCalls, entryReports s.Name ec = [] := by
      intro ec hec
      have h0 := h ec hec
      simp [entryReports, h0]
    simp [Server.Assert, assertLoop_spec, List.flatMap_eq_nil_iff.mpr this]

/-- Witness for C5: on the balanced server `srvZ`, `Assert` passes and
reports nothing; on `srvA` (counters 1 and 2) it fails. -/
theorem assert_reports_witness :
    ((∀ ec ∈ srvZ.ExpectedCalls, ec.Calls = 0)
      ∧ (srvZ.Assert).2.2 = true ∧ (srvZ.Assert).2.1 = [])
    ∧ (srvA.Assert).2.1 = srvA.ExpectedCalls.flatMap (entryReports srvA.Name) :=
  ⟨⟨by decide, ((assert_reports srvZ).1).mpr (by decide),
      (assert_reports srvZ).2.2 (by decide)⟩,
    (assert_reports srvA).2.1⟩

/-- The package-level `Assert` loop produces every server's reports in
order, and conjoins every server's pass flag. -/
theorem assertAllLoop_spec :
    ∀ (l : List Server) (acc : List Report) (pass : Bool),
      assertAllLoop l acc pass
        = (acc ++ l.flatMap (fun s => (s.Assert).2.1),
           pass && l.all fun s => (s.Assert).2.2)
  | [], acc, pass => by simp [assertAllLoop]
  | s :: rest, acc, pass => by
      have ih := assertAllLoop_spec rest (acc ++ (s.Assert).2.1)
        ((s.Assert).2.2 && pass)
      simp only [assertAllLoop, ih]
      refine Prod.ext ?_ ?_
      · simp
      · simp only []
        rw [Bool.and_comm (s.Assert).2.2 pass, Bool.and_assoc]
        simp [List.all_cons]

/-- **C8.** The package-level `Assert` runs `Server.Assert` on every
registered server in registration order and returns the conjunction of
their results without short-circuiting: every server's reports appear,
even when an earlier server already failed. -/
theorem assert_all (testServers : List Server) :
    (Assert testServers).1 = testServers.flatMap (fun s => (s.Assert).2.1)
    ∧ ((Assert testServers).2 = true ↔ ∀ s ∈ testServers, (s.Assert).2.2 = true) := by
  constructor
  · simp [Assert, assertAllLoop_spec]
  · simp [Assert, assertAllLoop_spec]

/-- Scanning past a block of non-matching entries leaves them in place
and continues on the rest of the list. -/
theorem serveScan_append (nf : Request → Response) (r : Request)
    (l1 l2 : List ExpectedCall) (h : ∀ ec ∈ l1, ec.Match r = false) :
    serveScan nf (l1 ++ l2) r
      = (serveScan nf l2 r).map fun p => (l1 ++ p.1, p.2) := by
  induction l1 with
  | nil =>
    cases hs : serveScan nf l2 r <;> simp [hs]
  | cons ec rest ih =>
    have h1 : ec.Match r = false := h ec (List.mem_cons_self ec rest)
    have ih' := ih fun e he => h e (List.mem_cons_of_mem ec he)
    cases hs : serveScan nf l2 r <;>
      simp [serveScan, h1, ih', hs]

/-- When no entry matches, routing appends the synthetic entry — the
request's method and exact path, no handler, counter already at `-1`
from being served — and answers with the not-found responder. -/
theorem serveHTTP_no_match (nf : Request → Response) (s : Server)
    (r : Request) (h : ∀ ec ∈ s.ExpectedCalls, ec.Match r = false) :
    s.serveHTTP nf r
      = ({ s with ExpectedCalls :=
            s.ExpectedCalls ++ [⟨r.method, r.path, none, -1⟩] }, nf r) := by
  have hs := serveScan_of_all_false nf r s.ExpectedCalls h
  have hc : (0 : Int) + (-1) = -1 := rfl
  simp [Server.serveHTTP, hs, Server.Expect, ExpectedCall.ServeHTTP,
    ExpectedCall.Increment, hc]

/-- A synthetic entry matches its own method and path. -/
theorem synthetic_match_self (m p : String) (h : Option (Request → Response))
    (c : Int) : ExpectedCall.Match ⟨m, p, h, c⟩ ⟨m, p⟩ = true := by
  simp [ExpectedCall.Match]

/-- Routing one more identical request to a list ending in the matching
synthetic entry decrements that entry by one and changes nothing else. -/
theorem serveHTTP_synthetic_step (nf : Request → Response) (s : Server)
    (m p : String) (c : Int) (orig : List ExpectedCall)
    (hl : s.ExpectedCalls = orig ++ [⟨m, p, none, c⟩])
    (h : ∀ ec ∈ orig, ec.Match ⟨m, p⟩ = false) :
    (s.serveHTTP nf ⟨m, p⟩).1.ExpectedCalls = orig ++ [⟨m, p, none, c - 1⟩] := by
  have hone : serveScan nf [(⟨m, p, none, c⟩ : ExpectedCall)] ⟨m, p⟩
      = some ([⟨m, p, none, c + (-1)⟩], nf ⟨m, p⟩) := by
    simp [serveScan, synthetic_match_self, ExpectedCall.ServeHTTP,
      ExpectedCall.Increment]
  have hscan := serveScan_append nf ⟨m, p⟩ orig [⟨m, p, none, c⟩] h
  rw [hone] at hscan
  have harith : c + (-1) = c - 1 := by ring
  simp [Server.serveHTTP, hl, hscan, harith]

/-- Repeatedly routing the identical unmatched request accumulates onto
the single synthetic entry at the end of the list. -/
theorem serveSeq_synthetic (nf : Request → Response) (m p : String)
    (orig : List ExpectedCall) (h : ∀ ec ∈ orig, ec.Match ⟨m, p⟩ = false) :
    ∀ (k : Nat) (s : Server) (c : Int),
      s.ExpectedCalls = orig ++ [⟨m, p, none, c⟩] →
      (serveSeq nf s (List.replicate k ⟨m, p⟩)).ExpectedCalls
        = orig ++ [⟨m, p, none, c - k⟩]
  | 0, s, c, hl => by simp [serveSeq, hl]
  | k + 1, s, c, hl => by
      have h1 := serveHTTP_synthetic_step nf s m p c orig hl h
      have ih := serveSeq_synthetic nf m p orig h k
        ((s.serveHTTP nf ⟨m, p⟩).1) (c - 1) h1
      have harith : c - 1 - (k : Int) = c - ((k : Int) + 1) := by ring
      rw [harith] at ih
      simp only [List.replicate, serveSeq, List.foldl] at ih ⊢
      rw [ih]
      norm_num

/-- **C4.** A request matching no registered expectation produces a
synthetic entry with the request's method and exact path, no handler
and counter `0`, which is served immediately (not-found response,
counter `-1`) and then appended; `M ≥ 1` identical such requests
produce exactly one synthetic entry with final counter `-M`, leaving
the pre-registered entries untouched. -/
theorem synthetic_accumulation (nf : Request → Response) (s : Server)
    (m p : String) (M : Nat) (hM : 1 ≤ M)
    (h : ∀ ec ∈ s.ExpectedCalls, ec.Match ⟨m, p⟩ = false) :
    (s.serveHTTP nf ⟨m, p⟩).1.ExpectedCalls
        = s.ExpectedCalls ++ [⟨m, p, none, -1⟩]
    ∧ (s.serveHTTP nf ⟨m, p⟩).2 = nf ⟨m, p⟩
    ∧ (serveSeq nf s (List.replicate M ⟨m, p⟩)).ExpectedCalls
        = s.ExpectedCalls ++ [⟨m, p, none, -(M : Int)⟩] := by
  have hstep := serveHTTP_no_match nf s ⟨m, p⟩ h
  refine ⟨by rw [hstep], by rw [hstep], ?_⟩
  obtain ⟨k, rfl⟩ : ∃ k, M = k + 1 := ⟨M - 1, by omega⟩
  have h1 : (s.serveHTTP nf ⟨m, p⟩).1.ExpectedCalls
      = s.ExpectedCalls ++ [⟨m, p, none, -1⟩] := by rw [hstep]
  have ih := serveSeq_synthetic nf m p s.ExpectedCalls h k
    ((s.serveHTTP nf ⟨m, p⟩).1) (-1) h1
  have harith : (-1 : Int) - (k : Int) = -(((k : Int)) + 1) := by ring
  rw [harith] at ih
  simp only [List.replicate, serveSeq, List.foldl] at ih ⊢
  rw [ih]
  norm_num

/-- Witness for C4: two identical `PUT /q` requests against `srvA`
(which they match nowhere) leave one synthetic entry at `-2`. -/
theorem synthetic_accumulation_witness :
    (1 ≤ 2 ∧ ∀ ec ∈ srvA.ExpectedCalls, ec.Match ⟨"PUT", "/q"⟩ = false)
    ∧ ((srvA.serveHTTP nf0 ⟨"PUT", "/q"⟩).1.ExpectedCalls
          = srvA.ExpectedCalls ++ [⟨"PUT", "/q", none, -1⟩]
        ∧ (srvA.serveHTTP nf0 ⟨"PUT", "/q"⟩).2 = nf0 ⟨"PUT", "/q"⟩
        ∧ (serveSeq nf0 srvA (List.replicate 2 ⟨"PUT", "/q"⟩)).ExpectedCalls
            = srvA.ExpectedCalls ++ [⟨"PUT", "/q", none, -(2 : Int)⟩]) :=
  ⟨⟨by decide, by decide⟩,
    synthetic_accumulation nf0 srvA "PUT" "/q" 2 (by decide) (by decide)⟩

/-- Any matching index dominates a least matching index. -/
theorem exists_first_match (r : Request) (l : List ExpectedCall)
    (i : Nat) (hi : i < l.length) (hm : l[i].Match r = true) :
    ∃ j, ∃ hj : j < l.length, j ≤ i ∧ l[j].Match r = true
      ∧ ∀ k (hk : k < j), l[k].Match r = false := by
  classical
  let P : Nat → Prop := fun n => ∃ e, l[n]? = some e ∧ e.Match r = true
  have hPi : P i := ⟨l[i], List.getElem?_eq_getElem hi, hm⟩
  have hEx : ∃ n, P n := ⟨i, hPi⟩
  obtain ⟨e, he, hem⟩ := Nat.find_spec hEx
  have hjlen : Nat.find hEx < l.length := by
    by_contra hc
    rw [List.getElem?_eq_none (Nat.le_of_not_lt hc)] at he
    exact Option.noConfusion he
  have hj2 : Nat.find hEx ≤ i := Nat.find_min' hEx hPi
  refine ⟨Nat.find hEx, hjlen, hj2, ?_, ?_⟩
  · rw [List.getElem?_eq_getElem hjlen] at he
    rw [Option.some_inj.mp he]
    exact hem
  · intro k hk
    have hnk : ¬ P k := Nat.find_min hEx hk
    have hklen : k < l.length := Nat.lt_trans hk hjlen
    by_contra hc
    exact hnk ⟨l[k], List.getElem?_eq_getElem hklen, by simpa using hc⟩

/-- **C10.** An entry with empty `Path` matches every request whose
method equals its `Method` (the empty string is a prefix of every
path); consequently, once such an entry is at index `i`, any request of
that method is served at some index `j ≤ i`, so the catch-all shadows
every later entry for that method. -/
theorem empty_path_catch_all (nf : Request → Response) (s : Server)
    (r : Request) (i : Nat) (hi : i < s.ExpectedCalls.length)
    (hp : s.ExpectedCalls[i].Path = "")
    (hmeth : s.ExpectedCalls[i].Method = r.method) :
    (∀ (ec : ExpectedCall) (q : Request), ec.Path = "" →
        (ec.Match q = true ↔ ec.Method = q.method))
    ∧ ∃ j, ∃ hj : j < s.ExpectedCalls.length, j ≤ i
        ∧ s.ExpectedCalls[j].Match r = true
        ∧ (s.serveHTTP nf r).1.ExpectedCalls
            = s.ExpectedCalls.set j (s.ExpectedCalls[j].ServeHTTP nf r).1
        ∧ (s.serveHTTP nf r).2 = (s.ExpectedCalls[j].ServeHTTP nf r).2 := by
  have hmatchall : ∀ (ec : ExpectedCall) (q : Request), ec.Path = "" →
      (ec.Match q = true ↔ ec.Method = q.method) := by
    intro ec q h
    have hd : ec.Path.data = [] := by rw [h]
    simp [ExpectedCall.Match, hd]
  have hm : s.ExpectedCalls[i].Match r = true :=
    (hmatchall _ r hp).mpr hmeth
  obtain ⟨j, hj, hji, hjm, hjf⟩ := exists_first_match r s.ExpectedCalls i hi hm
  have hscan := serveScan_first nf r s.ExpectedCalls j hj hjm hjf
  exact ⟨hmatchall, j, hj, hji, hjm, by simp [Server.serveHTTP, hscan],
    by simp [Server.serveHTTP, hscan]⟩

/-- Witness for C10: in `srvC` the second entry (`GET`, empty path)
catches the request `GET /whatever`, shadowing the later `GET /z`
entry. -/
theorem empty_path_catch_all_witness :
    ((ExpectedCall.mk "GET" "" none 1).Path = ""
      ∧ (ExpectedCall.mk "GET" "" none 1).Method = reqW.method)
    ∧ ((∀ (ec : ExpectedCall) (q : Request), ec.Path = "" →
          (ec.Match q = true ↔ ec.Method = q.method))
      ∧ ∃ j, ∃ hj : j < srvC.ExpectedCalls.length, j ≤ 1
          ∧ srvC.ExpectedCalls[j].Match reqW = true
          ∧ (srvC.serveHTTP nf0 reqW).1.ExpectedCalls
              = srvC.ExpectedCalls.set j (srvC.ExpectedCalls[j].ServeHTTP nf0 reqW).1
          ∧ (srvC.serveHTTP nf0 reqW).2
              = (srvC.ExpectedCalls[j].ServeHTTP nf0 reqW).2) :=
  ⟨⟨by decide, by decide⟩,
    empty_path_catch_all nf0 srvC reqW 1 (by decide) (by decide) (by decide)⟩

end Httpassert
